import Mathlib

/-!
Verification of the backend gateway of this repository against its
natural-language specification.  Each section shallowly embeds the relevant
Python source (backend_db) into Lean: pure helpers become Lean functions,
database-touching handlers become explicit state-passing functions over
record types that mirror the table rows they read and write.  Machine
integers are modelled as Nat (all quantities involved are non-negative),
SQL rows as structures or association lists, and raised exceptions as
explicit error values.
-/

namespace SelfDB

/-! ## Shared data model

UserRow mirrors the columns of the users table that the embedded handlers
read: id, email, first_name, last_name, role, is_active.  UUIDs are
modelled as Nat.
-/

structure UserRow where
  id : Nat
  email : String
  first_name : String
  last_name : String
  role : String
  is_active : Bool
deriving DecidableEq

structure HttpError where
  status : Nat
  detail : String
deriving DecidableEq

/-- Model of SELECT * FROM users WHERE id = uid followed by fetchone. -/
def findUserById (users : List UserRow) (uid : Nat) : Option UserRow :=
  users.find? (fun u => u.id = uid)

/-! ## Function execution metrics (endpoints/functions.py, receive_execution_result)

The handler reads the function row counters, bumps them and recomputes the
running average.  Python int() on a non-negative value is truncation, which
on the Nat model is Nat division.  The avg_execution_time_ms column is
nullable; the code reads it as old_avg = record or 0.
-/

structure FnMetrics where
  execution_count : Nat
  execution_success_count : Nat
  execution_error_count : Nat
  avg_execution_time_ms : Option Nat
deriving DecidableEq

def updateExecutionMetrics (m : FnMetrics) (success : Bool) (timeMs : Nat) : FnMetrics :=
  let newCount := m.execution_count + 1
  let newSuccess := m.execution_success_count + (if success then 1 else 0)
  let newError := m.execution_error_count + (if success then 0 else 1)
  let oldAvg := m.avg_execution_time_ms.getD 0
  let newAvg :=
    if oldAvg = 0 then timeMs
    else (oldAvg * m.execution_count + timeMs) / newCount
  ⟨newCount, newSuccess, newError, some newAvg⟩

/-! ## Authentication resolvers (backend/security.py)

A bearer token input is classified by what jwt.decode and the sub claim do
with it; the user lookup is a scan of the users table.  Exceptions are
explicit: PyExn for raised Python exceptions, HandlerOutcome for what the
caller of the dependency observes.
-/

inductive SubClaim where
  | absent
  | notUuid
  | uuid (uid : Nat)
deriving DecidableEq

inductive BearerToken where
  | missing
  | malformed
  | signed (sub : SubClaim)
deriving DecidableEq

inductive PyExn where
  | invalidToken
  | valueError
  | otherError
deriving DecidableEq

/-- Body of the try block of get_optional_current_user: decode the token,
read sub, convert it to a UUID, fetch the user, drop inactive users. -/
def optionalAuthTry (users : List UserRow) (token : BearerToken) :
    Except PyExn (Option UserRow) :=
  match token with
  | .missing => .error .otherError
  | .malformed => .error .invalidToken
  | .signed .absent => .ok none
  | .signed .notUuid => .error .valueError
  | .signed (.uuid uid) =>
    match findUserById users uid with
    | none => .ok none
    | some r => if r.is_active then .ok (some r) else .ok none

/-- get_optional_current_user: returns None for a missing token, otherwise
runs the try body and maps every raised exception to None. -/
def get_optional_current_user (users : List UserRow) (token : BearerToken) :
    Except PyExn (Option UserRow) :=
  match token with
  | .missing => .ok none
  | t =>
    match optionalAuthTry users t with
    | .ok v => .ok v
    | .error _ => .ok none

inductive HandlerOutcome (α : Type) where
  | ok (a : α)
  | http (e : HttpError)
  | raised (e : PyExn)
deriving DecidableEq

/-- get_current_user: the required-auth dependency.  A missing token is
rejected by the OAuth2 scheme with 401; decode failures and an absent sub
raise the credentials 401; a sub that is not a UUID raises an uncaught
ValueError (the UUID conversion happens outside the except clause); an
unknown user raises the credentials 401. -/
def get_current_user (users : List UserRow) (token : BearerToken) :
    HandlerOutcome UserRow :=
  match token with
  | .missing => .http ⟨401, "Could not validate credentials"⟩
  | .malformed => .http ⟨401, "Could not validate credentials"⟩
  | .signed .absent => .http ⟨401, "Could not validate credentials"⟩
  | .signed .notUuid => .raised .valueError
  | .signed (.uuid uid) =>
    match findUserById users uid with
    | none => .http ⟨401, "Could not validate credentials"⟩
    | some r => .ok r

/-- get_current_active_user: wraps get_current_user and rejects inactive
users with 400. -/
def get_current_active_user (users : List UserRow) (token : BearerToken) :
    HandlerOutcome UserRow :=
  match get_current_user users token with
  | .ok r => if r.is_active then .ok r else .http ⟨400, "Inactive user"⟩
  | .http e => .http e
  | .raised e => .raised e

/-! ## Refresh-token store (backend/security.py and endpoints/users.py)

The refresh_tokens table is a list of rows; time is an abstract Nat
instant.  SHA-256 hashing is modelled as the identity on raw tokens
(hash_token is injective for all practical purposes), and the
cryptographically random fresh token of create_refresh_token is passed in
as an argument.
-/

def REFRESH_TOKEN_EXPIRE_DAYS : Nat := 30

structure RefreshTokenRow where
  user_id : Nat
  token_hash : String
  expires_at : Nat
  revoked_at : Option Nat
deriving DecidableEq

structure AuthState where
  users : List UserRow
  refresh_tokens : List RefreshTokenRow
deriving DecidableEq

def hash_token (raw : String) : String := raw

/-- validate_refresh_token: fetch the row with the given hash; None if it
is absent, revoked, or expired (expires_at strictly before now). -/
def validate_refresh_token (st : AuthState) (raw : String) (now : Nat) : Option Nat :=
  match st.refresh_tokens.find? (fun r => r.token_hash = hash_token raw) with
  | none => none
  | some row =>
    if row.revoked_at ≠ none then none
    else if row.expires_at < now then none
    else some row.user_id

/-- create_refresh_token: INSERT a fresh unrevoked row expiring
REFRESH_TOKEN_EXPIRE_DAYS units after now. -/
def create_refresh_token (st : AuthState) (uid : Nat) (now : Nat) (freshToken : String) :
    AuthState :=
  { st with refresh_tokens :=
      st.refresh_tokens ++ [⟨uid, hash_token freshToken, now + REFRESH_TOKEN_EXPIRE_DAYS, none⟩] }

/-- revoke_all_user_tokens: UPDATE setting revoked_at on every unrevoked
row of the user. -/
def revoke_all_user_tokens (st : AuthState) (uid : Nat) (now : Nat) : AuthState :=
  { st with refresh_tokens :=
      st.refresh_tokens.map (fun r =>
        if r.user_id = uid ∧ r.revoked_at = none then { r with revoked_at := some now } else r) }

/-- rotate_refresh_token: UPDATE ... SET revoked_at WHERE token_hash = h AND
revoked_at IS NULL RETURNING id.  Zero affected rows means reuse: revoke
every live token of the user and return None; otherwise insert one fresh
row and return the fresh raw token. -/
def rotate_refresh_token (st : AuthState) (raw : String) (uid : Nat) (now : Nat)
    (freshToken : String) : Option String × AuthState :=
  let affected := st.refresh_tokens.filter
    (fun r => r.token_hash = hash_token raw ∧ r.revoked_at = none)
  if affected.isEmpty then
    (none, revoke_all_user_tokens st uid now)
  else
    let st1 := { st with refresh_tokens :=
        st.refresh_tokens.map (fun r =>
          if r.token_hash = hash_token raw ∧ r.revoked_at = none
          then { r with revoked_at := some now } else r) }
    (some freshToken, create_refresh_token st1 uid now freshToken)

inductive RefreshResponse where
  | tokenPair (refresh_token : String)
  | httpError (status : Nat) (detail : String)
deriving DecidableEq

/-- refresh_access_token: the POST /users/token/refresh handler.  It
validates first, then loads the user, then rotates.  The new JWT access
token is not modelled; the response carries the new refresh token. -/
def refresh_access_token (st : AuthState) (raw : String) (now : Nat) (freshToken : String) :
    RefreshResponse × AuthState :=
  match validate_refresh_token st raw now with
  | none => (.httpError 401 "Invalid or expired refresh token", st)
  | some uid =>
    match findUserById st.users uid with
    | none => (.httpError 401 "User not found", st)
    | some u =>
      if ¬ u.is_active then (.httpError 400 "Inactive user", st)
      else
        match rotate_refresh_token st raw uid now freshToken with
        | (none, st1) => (.httpError 401 "Token reuse detected. All sessions revoked.", st1)
        | (some t, st1) => (.tokenPair t, st1)

/-! ## User creation (endpoints/users.py, create_user)

The INSERT raises UniqueViolation exactly when another row already holds
the requested email (email is the unique key; the fresh id is a random
UUID).  The except branch re-reads the row by email and returns it as is,
falling back to 409 only when that read finds nothing.
-/

inductive CreateUserResult where
  | created (u : UserRow)
  | existing (u : UserRow)
  | conflict
deriving DecidableEq

def create_user (users : List UserRow) (email first last : String) (freshId : Nat) :
    CreateUserResult × List UserRow :=
  if users.any (fun u => u.email = email) then
    match users.find? (fun u => u.email = email) with
    | some ex => (.existing ex, users)
    | none => (.conflict, users)
  else
    let row : UserRow := ⟨freshId, email, first, last, "USER", true⟩
    (.created row, users ++ [row])

/-! ## Dynamic-table row WHERE clause (endpoints/tables.py)

update_row and delete_row build the same WHERE clause: the id_column query
parameter (default "id") compared against the row_id path parameter, plus,
for non-ADMIN callers, user_id compared against the caller id.  A row of
the physical table is an association list from column names to values.
-/

structure WhereClause where
  idColumn : String
  rowIdValue : String
  userIdFilter : Option String
deriving DecidableEq

def rowWhereClause (role : String) (idColumn rowId callerId : String) : WhereClause :=
  if role = "ADMIN" then ⟨idColumn, rowId, none⟩
  else ⟨idColumn, rowId, some callerId⟩

def matchesWhere (w : WhereClause) (r : List (String × String)) : Bool :=
  (r.lookup w.idColumn == some w.rowIdValue) &&
  (match w.userIdFilter with
   | none => true
   | some uid => r.lookup "user_id" == some uid)

/-- update_row after building the clause: zero affected rows yield the 404;
otherwise the update succeeds (the SET list is irrelevant to the claim). -/
def update_row_outcome (rows : List (List (String × String)))
    (role idColumn rowId callerId : String) : Option HttpError :=
  let w := rowWhereClause role idColumn rowId callerId
  if rows.any (matchesWhere w) then none
  else some ⟨404, "Row not found or you don't have permission to update it"⟩

/-- delete_row after building the clause, with its own 404 detail. -/
def delete_row_outcome (rows : List (List (String × String)))
    (role idColumn rowId callerId : String) : Option HttpError :=
  let w := rowWhereClause role idColumn rowId callerId
  if rows.any (matchesWhere w) then none
  else some ⟨404, "Row not found or you don't have permission to delete it"⟩

/-! ## macOS-style duplicate filename resolution (endpoints/files.py)

Paths are lists of characters.  The files table is reduced to the list of
paths of the live rows of the bucket (is_latest = TRUE and deleted_at IS
NULL), which is exactly the set the two SQL queries of the function range
over.  Whitespace and digits follow the Python re classes restricted to
ASCII, which is the alphabet of stored paths.
-/

def pyIsSpace (c : Char) : Bool :=
  c = ' ' ∨ c = '\t' ∨ c = '\n' ∨ c = '\x0b' ∨ c = '\x0c' ∨ c = '\r'

/-- Python str.rsplit(sep, 1): split at the last occurrence of sep, when
there is one. -/
def rsplitLast (sep : Char) (l : List Char) : Option (List Char × List Char) :=
  match (l.reverse.span (fun c => c ≠ sep)) with
  | (_, []) => none
  | (revTail, _ :: revHead) => some (revHead.reverse, revTail.reverse)

/-- Directory part (ending in the slash) and filename part of a path. -/
def pathSplitDir (path : List Char) : List Char × List Char :=
  match rsplitLast '/' path with
  | some (d, f) => (d ++ ['/'], f)
  | none => ([], path)

/-- Base name and extension (the extension keeps its dot). -/
def pathSplitExt (filename : List Char) : List Char × List Char :=
  match rsplitLast '.' filename with
  | some (b, e) => (b, '.' :: e)
  | none => (filename, [])

/-- SQL LIKE matching: percent matches any sequence, underscore any single
character, everything else literally.  Fuelled to keep the recursion
structural; one unit of fuel is consumed per step and every step shrinks
pattern + text, so pattern.length + text.length units always suffice. -/
def likeMatchAux : Nat → List Char → List Char → Bool
  | 0, _, _ => false
  | _ + 1, [], t => t.isEmpty
  | fuel + 1, p :: ps, t =>
    if p = '%' then
      likeMatchAux fuel ps t ||
        (match t with
         | [] => false
         | _ :: ts => likeMatchAux fuel (p :: ps) ts)
    else
      match t with
      | [] => false
      | c :: ts =>
        if p = '_' then likeMatchAux fuel ps ts
        else p = c && likeMatchAux fuel ps ts

def likeMatch (pattern text : List Char) : Bool :=
  likeMatchAux (pattern.length + text.length + 1) pattern text

def digitsToNat (ds : List Char) : Nat :=
  ds.foldl (fun acc c => acc * 10 + (c.toNat - 48)) 0

/-- Greedy part of the optional regex group \s*\((\d+)\) after an opening
parenthesis: maximal digit run, closing parenthesis, then the extension to
the end of the path. -/
def parenNumberSuffix (ext r2 : List Char) : Option Nat :=
  let ds := r2.takeWhile Char.isDigit
  if ds.isEmpty then none
  else
    match r2.dropWhile Char.isDigit with
    | ')' :: rest => if rest = ext then some (digitsToNat ds) else none
    | _ => none

/-- Optional group \s*\((\d+)\) of the filename regex: maximal whitespace
run, then a parenthesised number followed by the extension. -/
def groupNumber (ext r : List Char) : Option Nat :=
  match r.dropWhile pyIsSpace with
  | '(' :: r2 => parenNumberSuffix ext r2
  | _ => none

/-- Embedding of the anchored regex
escape(dir + base) (?:\s*\((\d+)\))? escape(ext) $ applied by re.match:
group(1) as a number when the optional group matched, 0 when the bare form
matched, none otherwise.  The regex engine tries the greedy optional group
first and falls back to the empty alternative. -/
def matchNumberedName (dir base ext p : List Char) : Option Nat :=
  if (dir ++ base).isPrefixOf p then
    let r := p.drop (dir ++ base).length
    match groupNumber ext r with
    | some n => some n
    | none => if r = ext then some 0 else none
  else none

/-- While loop: next_num starts at 1 and is bumped past every used number.
Fuelled; used.length + 1 steps always suffice because each bump consumes a
distinct member of used. -/
def nextFreeAux (used : List Nat) : Nat → Nat → Nat
  | 0, n => n
  | fuel + 1, n => if n ∈ used then nextFreeAux used fuel (n + 1) else n

def nextFree (used : List Nat) : Nat :=
  nextFreeAux used (used.length + 1) 1

/-- find_next_available_filename over the live paths of the bucket. -/
def find_next_available_filename (live : List (List Char)) (originalPath : List Char) :
    List Char :=
  if ¬ live.contains originalPath then originalPath
  else
    let dir := (pathSplitDir originalPath).1
    let base := (pathSplitExt (pathSplitDir originalPath).2).1
    let ext := (pathSplitExt (pathSplitDir originalPath).2).2
    let existing := live.filter (fun p => likeMatch (dir ++ base ++ '%' :: ext) p)
    let used := existing.filterMap (matchNumberedName dir base ext)
    let n := nextFree used
    dir ++ base ++ (' ' :: '(' :: (toString n).toList) ++ ')' :: ext

/-- Modelled from the claim wording for comparison: a live file counts a
number k only when it is literally base, one space, parenthesised digits,
extension. -/
def claimParseSuffixed (dir base ext p : List Char) : Option Nat :=
  if (dir ++ base).isPrefixOf p then
    match p.drop (dir ++ base).length with
    | ' ' :: '(' :: r2 =>
      let ds := r2.takeWhile Char.isDigit
      if ds.isEmpty then none
      else
        match r2.drop ds.length with
        | ')' :: rest => if rest = ext then some (digitsToNat ds) else none
        | _ => none
    | _ => none
  else none

/-- Modelled from the claim wording: the resolver the claim describes,
probing base (1).ext, base (2).ext, ... and skipping only numbers used by
live files of exactly that shape. -/
def claimResolveFilename (live : List (List Char)) (originalPath : List Char) :
    List Char :=
  if ¬ live.contains originalPath then originalPath
  else
    let dir := (pathSplitDir originalPath).1
    let base := (pathSplitExt (pathSplitDir originalPath).2).1
    let ext := (pathSplitExt (pathSplitDir originalPath).2).2
    let used := live.filterMap (claimParseSuffixed dir base ext)
    let n := nextFree used
    dir ++ base ++ (' ' :: '(' :: (toString n).toList) ++ ')' :: ext

/-! ## Storage worker upload (storage/endpoints/files.py, upload_file)

The handler is embedded as the trace of filesystem operations it performs
on the target path and its temporary file, interpreted over a two-field
filesystem state.  Writing goes to the temp file only; the target changes
only through the single rename.  Chunks are abstract byte lists; a raw
stream delivers its chunks as sent, a multipart read loop stops at the
first empty read.  failAfter k models the body stream or multipart read
raising after k successful chunk writes; renameFails models os.replace
raising.
-/

inductive FsOp where
  | createTemp
  | writeTemp (chunk : List Nat)
  | unlinkTemp
  | renameTempToTarget
deriving DecidableEq

structure FsState where
  target : Option (List Nat)
  temp : Option (List Nat)
deriving DecidableEq

def runFsOp (st : FsState) : FsOp → FsState
  | .createTemp => { st with temp := some [] }
  | .writeTemp c => { st with temp := st.temp.map (· ++ c) }
  | .unlinkTemp => { st with temp := none }
  | .renameTempToTarget =>
    match st.temp with
    | some c => ⟨some c, none⟩
    | none => st

def runFsOps (ops : List FsOp) (st : FsState) : FsState :=
  ops.foldl runFsOp st

inductive UploadBody where
  | raw (chunks : List (List Nat)) (failAfter : Option Nat)
  | multipart (chunks : List (List Nat)) (failAfter : Option Nat)
  | multipartNoFile
deriving DecidableEq

inductive UploadResp where
  | created (size : Nat)
  | httpError (status : Nat) (detail : String)
deriving DecidableEq

/-- Chunks the multipart read loop actually consumes: it stops at the
first empty read. -/
def multipartChunks (chunks : List (List Nat)) : List (List Nat) :=
  chunks.takeWhile (fun c => ¬ c.isEmpty)

/-- Trace and response of the storage upload handler: create the temp file
in the target directory, stream the body into it, then either unlink it
(empty body, mid-stream error, failed rename, missing multipart file) or
rename it onto the target. -/
def uploadTrace (body : UploadBody) (renameFails : Bool) : List FsOp × UploadResp :=
  match body with
  | .multipartNoFile =>
    ([.createTemp, .unlinkTemp], .httpError 400 "No file provided in multipart form")
  | .raw chunks failAfter =>
    match failAfter with
    | some k =>
      (.createTemp :: (chunks.take k).map FsOp.writeTemp ++ [.unlinkTemp],
        .httpError 500 "Upload failed")
    | none =>
      let written := chunks.flatten
      if written.length = 0 then
        (.createTemp :: chunks.map FsOp.writeTemp ++ [.unlinkTemp],
          .httpError 422 "File cannot be empty")
      else if renameFails then
        (.createTemp :: chunks.map FsOp.writeTemp ++ [.unlinkTemp],
          .httpError 500 "Upload failed")
      else
        (.createTemp :: chunks.map FsOp.writeTemp ++ [.renameTempToTarget],
          .created written.length)
  | .multipart chunks failAfter =>
    let eff := multipartChunks chunks
    match failAfter with
    | some k =>
      (.createTemp :: (eff.take k).map FsOp.writeTemp ++ [.unlinkTemp],
        .httpError 500 "Upload failed")
    | none =>
      let written := eff.flatten
      if written.length = 0 then
        (.createTemp :: eff.map FsOp.writeTemp ++ [.unlinkTemp],
          .httpError 422 "File cannot be empty")
      else if renameFails then
        (.createTemp :: eff.map FsOp.writeTemp ++ [.unlinkTemp],
          .httpError 500 "Upload failed")
      else
        (.createTemp :: eff.map FsOp.writeTemp ++ [.renameTempToTarget],
          .created written.length)

/-- upload_file of the storage service: run the trace against the
filesystem holding prev at the target path. -/
def upload_file_storage (prev : Option (List Nat)) (body : UploadBody)
    (renameFails : Bool) : UploadResp × FsState :=
  let (ops, resp) := uploadTrace body renameFails
  (resp, runFsOps ops ⟨prev, none⟩)

/-! ## SQL statement splitter (backend/endpoints/sql.py, split_sql_statements)

The Python scanner walks the query with an index, a current-statement
buffer, an in-string flag holding the opening quote character, and an
accumulator of emitted statements.  Dollar handling scans ahead with
str.find.  The index jumps are variable, so the Lean embedding threads an
explicit fuel that the wrapper sets to the input length; every step
consumes at least one input character, so the fuel never runs out on the
wrapper path.  Python str.strip is modelled over the ASCII whitespace
characters.
-/

def pyStrip (l : List Char) : List Char :=
  ((l.dropWhile pyIsSpace).reverse.dropWhile pyIsSpace).reverse

/-- Append the stripped current statement to the accumulator, dropping it
when empty. -/
def emitStmt (cur : List Char) (acc : List (List Char)) : List (List Char) :=
  if (pyStrip cur).isEmpty then acc else acc ++ [pyStrip cur]

/-- Python str.find for a substring: leftmost index at which needle starts
inside hay. -/
def findSubIdx? (needle : List Char) : List Char → Option Nat
  | [] => if needle.isPrefixOf [] then some 0 else none
  | c :: t =>
    if needle.isPrefixOf (c :: t) then some 0
    else (findSubIdx? needle t).map (· + 1)

def split_sql_statements_aux :
    Nat → List Char → Option Char → List Char → List (List Char) → List (List Char)
  | _, [], _, cur, acc => emitStmt cur acc
  | 0, _ :: _, _, cur, acc => emitStmt cur acc
  | fuel + 1, c :: cs, inStr, cur, acc =>
    if c = '$' ∧ inStr = none then
      match cs.findIdx? (fun x => x = '$') with
      | none =>
        -- no second dollar: the character falls through to the plain branch
        split_sql_statements_aux fuel cs inStr (cur ++ [c]) acc
      | some j =>
        let tag := '$' :: cs.take (j + 1)
        let after := cs.drop (j + 1)
        match findSubIdx? tag after with
        | some k =>
          split_sql_statements_aux fuel (after.drop (k + tag.length)) inStr
            (cur ++ tag ++ after.take (k + tag.length)) acc
        | none =>
          -- unterminated dollar quote: the code appends the dollar again and
          -- the index jump skips the character right after the scanned tag
          split_sql_statements_aux fuel (after.drop 1) inStr (cur ++ tag ++ ['$']) acc
    else if (c = '\'' ∨ c = '"') ∧ inStr = none then
      split_sql_statements_aux fuel cs (some c) (cur ++ [c]) acc
    else if inStr = some c then
      match cs with
      | c2 :: cs2 =>
        if c2 = c then split_sql_statements_aux fuel cs2 inStr (cur ++ [c, c2]) acc
        else split_sql_statements_aux fuel cs none (cur ++ [c]) acc
      | [] => split_sql_statements_aux fuel cs none (cur ++ [c]) acc
    else if c = ';' ∧ inStr = none then
      split_sql_statements_aux fuel cs inStr [] (emitStmt cur acc)
    else
      split_sql_statements_aux fuel cs inStr (cur ++ [c]) acc

def split_sql_statements (q : List Char) : List (List Char) :=
  split_sql_statements_aux q.length q none [] []

/-! Reference splitter, modelled from the claim wording: split only at
semicolons outside single-quoted strings, double-quoted identifiers and
dollar-quoted strings ($$...$$ and $tag$...$tag$, the tag a run of
letters, digits or underscores), with a doubled quote inside a quoted
region read as an escape; each statement stripped, empty statements
dropped, a trailing statement without semicolon still returned. -/

inductive SqlMode where
  | normal
  | inSingle
  | inDouble
  | inDollar (delim : List Char)
deriving DecidableEq

def sqlTagChar (c : Char) : Bool := c.isAlphanum || c = '_'

def specSplitAux :
    Nat → List Char → SqlMode → List Char → List (List Char) → List (List Char)
  | _, [], _, cur, acc => emitStmt cur acc
  | 0, _ :: _, _, cur, acc => emitStmt cur acc
  | fuel + 1, c :: cs, mode, cur, acc =>
    match mode with
    | .normal =>
      if c = ';' then specSplitAux fuel cs .normal [] (emitStmt cur acc)
      else if c = '\'' then specSplitAux fuel cs .inSingle (cur ++ [c]) acc
      else if c = '"' then specSplitAux fuel cs .inDouble (cur ++ [c]) acc
      else if c = '$' then
        let run := cs.takeWhile sqlTagChar
        if (cs.drop run.length).head? = some '$' then
          specSplitAux fuel (cs.drop (run.length + 1))
            (.inDollar ('$' :: run ++ ['$'])) (cur ++ '$' :: run ++ ['$']) acc
        else specSplitAux fuel cs .normal (cur ++ [c]) acc
      else specSplitAux fuel cs .normal (cur ++ [c]) acc
    | .inSingle =>
      if c = '\'' then
        match cs with
        | c2 :: cs2 =>
          if c2 = '\'' then specSplitAux fuel cs2 .inSingle (cur ++ [c, c2]) acc
          else specSplitAux fuel cs .normal (cur ++ [c]) acc
        | [] => specSplitAux fuel cs .normal (cur ++ [c]) acc
      else specSplitAux fuel cs .inSingle (cur ++ [c]) acc
    | .inDouble =>
      if c = '"' then
        match cs with
        | c2 :: cs2 =>
          if c2 = '"' then specSplitAux fuel cs2 .inDouble (cur ++ [c, c2]) acc
          else specSplitAux fuel cs .normal (cur ++ [c]) acc
        | [] => specSplitAux fuel cs .normal (cur ++ [c]) acc
      else specSplitAux fuel cs .inDouble (cur ++ [c]) acc
    | .inDollar delim =>
      if delim.isPrefixOf (c :: cs) then
        specSplitAux fuel ((c :: cs).drop delim.length) .normal (cur ++ delim) acc
      else specSplitAux fuel cs (.inDollar delim) (cur ++ [c]) acc

def specSplit (q : List Char) : List (List Char) :=
  specSplitAux q.length q .normal [] []

/-- Scanner state of the Python splitter mapped to the reference mode. -/
def strModeOf : Option Char → SqlMode
  | none => .normal
  | some c => if c = '\'' then .inSingle else .inDouble

/-! ## CREATE TABLE / DROP TABLE detection and registry reconciliation
(backend/endpoints/sql.py)

The regexes of parse_single_create_table and parse_drop_table_statements
are compiled by hand into deterministic matchers: every quantifier in them
is greedy over a character class whose members can never start the
following literal, so maximal munch is equivalent to the backtracking
engine; the one optional group (IF NOT EXISTS / IF EXISTS) is tried first
and the alternative without it is retried when the continuation fails,
exactly as the engine backtracks.  Matching is case-insensitive; names are
lowercased as in the source.
-/

def SYSTEM_TABLES : List String :=
  ["system_config", "users", "tables", "sql_history", "sql_snippets",
   "buckets", "files", "functions", "function_executions", "function_logs",
   "webhooks", "webhook_deliveries", "refresh_tokens",
   "pg_catalog", "information_schema"]

def PG_TYPE_MAPPING : List (String × String) :=
  [("text", "TEXT"), ("varchar", "TEXT"), ("character varying", "TEXT"),
   ("char", "TEXT"), ("character", "TEXT"),
   ("int", "INTEGER"), ("int4", "INTEGER"), ("integer", "INTEGER"),
   ("int8", "BIGINT"), ("bigint", "BIGINT"), ("smallint", "INTEGER"),
   ("int2", "INTEGER"), ("serial", "INTEGER"), ("bigserial", "BIGINT"),
   ("decimal", "DECIMAL"), ("numeric", "DECIMAL"),
   ("real", "FLOAT"), ("float", "FLOAT"), ("float4", "FLOAT"),
   ("float8", "FLOAT"), ("double precision", "FLOAT"),
   ("boolean", "BOOLEAN"), ("bool", "BOOLEAN"),
   ("date", "DATE"), ("time", "TIMESTAMP"), ("timestamp", "TIMESTAMP"),
   ("timestamp with time zone", "TIMESTAMP"),
   ("timestamp without time zone", "TIMESTAMP"), ("timestamptz", "TIMESTAMP"),
   ("json", "JSON"), ("jsonb", "JSONB"), ("uuid", "UUID"), ("bytea", "TEXT")]

/-- Regex word character class. -/
def wordChar (c : Char) : Bool := c.isAlphanum || c = '_'

/-- Case-insensitive literal match: return the rest of the input after the
lowercase needle. -/
def matchLitCI : List Char → List Char → Option (List Char)
  | [], hay => some hay
  | _ :: _, [] => none
  | n :: ns, h :: hs => if h.toLower = n then matchLitCI ns hs else none

/-- Regex one-or-more whitespace. -/
def matchWs1 : List Char → Option (List Char)
  | [] => none
  | c :: rest => if pyIsSpace c then some (rest.dropWhile pyIsSpace) else none

/-- Optional leading single or double quote of the name groups. -/
def skipOptQuote : List Char → List Char
  | [] => []
  | c :: r => if c = '\'' ∨ c = '"' then r else c :: r

/-- Name group of the CREATE TABLE regex followed by optional quote,
optional whitespace and the opening parenthesis; returns the name and the
rest starting at the parenthesis. -/
def matchNameParen (l : List Char) : Option (List Char × List Char) :=
  let l1 := skipOptQuote l
  let name := l1.takeWhile wordChar
  if name.isEmpty then none
  else
    let l4 := (skipOptQuote (l1.dropWhile wordChar)).dropWhile pyIsSpace
    match l4 with
    | '(' :: _ => some (name, l4)
    | _ => none

/-- Optional group IF NOT EXISTS of the CREATE TABLE regex, with its
trailing whitespace. -/
def matchIfNotExistsGroup (l : List Char) : Option (List Char) :=
  (matchLitCI "if".toList l).bind fun r1 =>
  (matchWs1 r1).bind fun r2 =>
  (matchLitCI "not".toList r2).bind fun r3 =>
  (matchWs1 r3).bind fun r4 =>
  (matchLitCI "exists".toList r4).bind matchWs1

/-- Try the CREATE TABLE head regex anchored at this position. -/
def tryCreateAt (l : List Char) : Option (List Char × List Char) :=
  (matchLitCI "create".toList l).bind fun r1 =>
  (matchWs1 r1).bind fun r2 =>
  (matchLitCI "table".toList r2).bind fun r3 =>
  (matchWs1 r3).bind fun r4 =>
    match matchIfNotExistsGroup r4 with
    | some r5 =>
      match matchNameParen r5 with
      | some res => some res
      | none => matchNameParen r4
    | none => matchNameParen r4

/-- re.search for the CREATE TABLE head: leftmost position at which the
anchored matcher succeeds. -/
def searchCreate : List Char → Option (List Char × List Char)
  | [] => none
  | c :: rest =>
    match tryCreateAt (c :: rest) with
    | some r => some r
    | none => searchCreate rest

/-- Scan for the parenthesis matching the already consumed opener,
returning the content before it.  The Python loop counts every
parenthesis, quoted or not. -/
def parenContentAux : Nat → List Char → List Char → Option (List Char)
  | _, _, [] => none
  | depth, acc, c :: cs =>
    if c = '(' then parenContentAux (depth + 1) (acc ++ [c]) cs
    else if c = ')' then
      if depth = 0 then some acc
      else parenContentAux (depth - 1) (acc ++ [c]) cs
    else parenContentAux depth (acc ++ [c]) cs

/-- Split the column definitions at commas outside parentheses; every
piece is stripped at its comma, the trailing piece only when nonempty. -/
def splitColumnsAux : Nat → List Char → List Char → List (List Char) → List (List Char)
  | _, current, [], cols =>
    if (pyStrip current).isEmpty then cols else cols ++ [pyStrip current]
  | depth, current, c :: cs, cols =>
    if c = '(' then splitColumnsAux (depth + 1) (current ++ [c]) cs cols
    else if c = ')' then splitColumnsAux (depth - 1) (current ++ [c]) cs cols
    else if c = ',' ∧ depth = 0 then splitColumnsAux 0 [] cs (cols ++ [pyStrip current])
    else splitColumnsAux depth (current ++ [c]) cs cols

/-- re.match of the constraint-skipping alternation
PRIMARY KEY, FOREIGN KEY, UNIQUE, CHECK, CONSTRAINT after leading
whitespace (a prefix match: no word boundary is required). -/
def isConstraintStart (col : List Char) : Bool :=
  let l := col.dropWhile pyIsSpace
  ((matchLitCI "primary".toList l).bind fun r =>
      (matchWs1 r).bind (matchLitCI "key".toList)).isSome
  || ((matchLitCI "foreign".toList l).bind fun r =>
      (matchWs1 r).bind (matchLitCI "key".toList)).isSome
  || (matchLitCI "unique".toList l).isSome
  || (matchLitCI "check".toList l).isSome
  || (matchLitCI "constraint".toList l).isSome

/-- re.match of the column regex: optional quote, word name, optional
quote, whitespace, word type with an optional parenthesised size.  Returns
the name and type groups; the size part is dropped afterwards by the
re.sub in the source, so only the type word is kept. -/
def parseColDef (col : List Char) : Option (List Char × List Char) :=
  let l1 := skipOptQuote col
  let name := l1.takeWhile wordChar
  if name.isEmpty then none
  else
    match matchWs1 (skipOptQuote (l1.dropWhile wordChar)) with
    | none => none
    | some l4 =>
      let ty := l4.takeWhile wordChar
      if ty.isEmpty then none else some (name, ty)

def lowerString (l : List Char) : String := String.mk (l.map Char.toLower)

/-- Substring test used for the NOT NULL detection. -/
def containsSub (needle hay : List Char) : Bool := (findSubIdx? needle hay).isSome

structure ColumnInfo where
  type : String
  nullable : Bool
deriving DecidableEq

/-- Python dict insertion: a repeated column name overwrites in place. -/
def upsertColumn (schema : List (String × ColumnInfo)) (name : String)
    (info : ColumnInfo) : List (String × ColumnInfo) :=
  if schema.any (fun p => p.1 = name) then
    schema.map (fun p => if p.1 = name then (name, info) else p)
  else schema ++ [(name, info)]

/-- parse_single_create_table: find the CREATE TABLE head, reject system
tables, extract the parenthesised column block, fold the column
definitions into a schema, and fail when the schema stays empty. -/
def parse_single_create_table (stmt : List Char) :
    Option (String × List (String × ColumnInfo)) :=
  match searchCreate stmt with
  | none => none
  | some (nameChars, fromParen) =>
    let table_name := lowerString nameChars
    if SYSTEM_TABLES.contains table_name then none
    else
      match fromParen with
      | '(' :: rest =>
        match parenContentAux 0 [] rest with
        | none => none
        | some content =>
          let cols := splitColumnsAux 0 [] content []
          let schema := cols.foldl (fun sch colRaw =>
            let col := pyStrip colRaw
            if isConstraintStart col then sch
            else
              match parseColDef col with
              | none => sch
              | some (nm, ty) =>
                let mapped := ((PG_TYPE_MAPPING.lookup (lowerString ty)).getD "TEXT")
                let nullable := ¬ containsSub "not null".toList (col.map Char.toLower)
                upsertColumn sch (lowerString nm) ⟨mapped, nullable⟩) []
          if schema.isEmpty then none else some (table_name, schema)
      | _ => none

/-- Gate of parse_create_table_statements: re.search for CREATE\s+TABLE. -/
def searchCreateTableKw : List Char → Bool
  | [] => false
  | c :: rest =>
    (((matchLitCI "create".toList (c :: rest)).bind matchWs1).bind
        (matchLitCI "table".toList)).isSome
      || searchCreateTableKw rest

def parse_create_table_statements (q : List Char) :
    List (String × List (String × ColumnInfo)) :=
  ((split_sql_statements q).filter searchCreateTableKw).filterMap
    parse_single_create_table

/-- Optional group IF EXISTS of the DROP TABLE regex. -/
def matchIfExistsGroup (l : List Char) : Option (List Char) :=
  (matchLitCI "if".toList l).bind fun r1 =>
  (matchWs1 r1).bind fun r2 =>
  (matchLitCI "exists".toList r2).bind matchWs1

/-- Name group of the DROP TABLE regex. -/
def matchDropName (l : List Char) : Option (List Char) :=
  let l1 := skipOptQuote l
  let nm := l1.takeWhile wordChar
  if nm.isEmpty then none else some nm

/-- Try the DROP TABLE regex anchored at this position. -/
def tryDropAt (l : List Char) : Option (List Char) :=
  (matchLitCI "drop".toList l).bind fun r1 =>
  (matchWs1 r1).bind fun r2 =>
  (matchLitCI "table".toList r2).bind fun r3 =>
  (matchWs1 r3).bind fun r4 =>
    match matchIfExistsGroup r4 with
    | some r5 =>
      match matchDropName r5 with
      | some nm => some nm
      | none => matchDropName r4
    | none => matchDropName r4

def searchDrop : List Char → Option (List Char)
  | [] => none
  | c :: rest =>
    match tryDropAt (c :: rest) with
    | some nm => some nm
    | none => searchDrop rest

def parse_drop_table_statements (q : List Char) : List String :=
  (split_sql_statements q).filterMap (fun stmt =>
    match searchDrop stmt with
    | none => none
    | some nm =>
      let name := lowerString nm
      if SYSTEM_TABLES.contains name then none else some name)

/-! Registry reconciliation after a successful non-read execution. -/

structure TableMeta where
  name : String
  table_schema : List (String × ColumnInfo)
  public : Bool
  owner_id : Nat
deriving DecidableEq

/-- register_table_metadata: skip when a row of the name exists, otherwise
insert a private row owned by the caller. -/
def register_table_metadata (reg : List TableMeta) (name : String)
    (schema : List (String × ColumnInfo)) (owner : Nat) : List TableMeta :=
  if reg.any (fun t => t.name = name) then reg
  else reg ++ [⟨name, schema, false, owner⟩]

/-- unregister_table_metadata: DELETE FROM tables WHERE name = name. -/
def unregister_table_metadata (reg : List TableMeta) (name : String) :
    List TableMeta :=
  reg.filter (fun t => t.name ≠ name)

/-- Registry effect of execute_query on a successful non-read query: all
CREATE registrations first, then all DROP unregistrations. -/
def execute_query_registry (reg : List TableMeta) (q : List Char) (owner : Nat) :
    List TableMeta :=
  let afterCreates := (parse_create_table_statements q).foldl
    (fun r p => register_table_metadata r p.1 p.2 owner) reg
  (parse_drop_table_statements q).foldl
    (fun r n => unregister_table_metadata r n) afterCreates

/-- Modelled from the claim wording, for comparison with the parser of the
source: a CREATE TABLE statement of the submitted text names the
identifier after CREATE TABLE and the optional IF NOT EXISTS, either an
unquoted word or a double-quoted identifier of arbitrary content,
lowercased like the registry names. -/
def claimStatementTableName (stmt : List Char) : Option String :=
  (matchLitCI "create".toList (stmt.dropWhile pyIsSpace)).bind fun r1 =>
  (matchWs1 r1).bind fun r2 =>
  (matchLitCI "table".toList r2).bind fun r3 =>
  (matchWs1 r3).bind fun r4 =>
    match (matchIfNotExistsGroup r4).getD r4 with
    | '"' :: rest =>
      let nm := rest.takeWhile (fun c => c ≠ '"')
      if (rest.drop nm.length).head? = some '"' ∧ ¬ nm.isEmpty
      then some (lowerString nm) else none
    | r5 =>
      let nm := r5.takeWhile wordChar
      if nm.isEmpty then none else some (lowerString nm)

/-- Modelled from the claim wording: the table names of the CREATE TABLE
statements in the submitted text. -/
def claimCreateTableNames (q : List Char) : List String :=
  (split_sql_statements q).filterMap claimStatementTableName

/-- Bytes the handler writes for a given body: a raw stream delivers every
chunk, a multipart read stops at the first empty chunk. -/
def writtenBody : UploadBody → List Nat
  | .raw chunks _ => chunks.flatten
  | .multipart chunks _ => (multipartChunks chunks).flatten
  | .multipartNoFile => []

/-! ## Theorems -/

/-- Helper: a run of writeTemp operations appends the chunks to the open
temp file and leaves the target alone. -/
theorem runFsOps_writes (cs : List (List Nat)) (t : Option (List Nat)) (acc : List Nat) :
    runFsOps (cs.map FsOp.writeTemp) ⟨t, some acc⟩ = ⟨t, some (acc ++ cs.flatten)⟩ := by
  induction cs generalizing acc with
  | nil => simp [runFsOps]
  | cons c cs ih =>
    have step : runFsOps ((c :: cs).map FsOp.writeTemp) ⟨t, some acc⟩
        = runFsOps (cs.map FsOp.writeTemp) ⟨t, some (acc ++ c)⟩ := rfl
    rw [step, ih (acc ++ c)]
    simp [List.append_assoc]

/-- Helper: an aborted upload trace leaves the filesystem unchanged. -/
theorem runFsOps_abort (cs : List (List Nat)) (prev : Option (List Nat)) :
    runFsOps (.createTemp :: cs.map FsOp.writeTemp ++ [.unlinkTemp]) ⟨prev, none⟩
      = ⟨prev, none⟩ := by
  simp only [runFsOps, List.foldl_cons, List.foldl_append, runFsOp]
  rw [show (List.foldl runFsOp ⟨prev, some []⟩ (cs.map FsOp.writeTemp)
      = ⟨prev, some ([] ++ cs.flatten)⟩) from runFsOps_writes cs prev []]
  rfl

/-- Helper: a committed upload trace installs exactly the written bytes at
the target path and removes the temp file. -/
theorem runFsOps_commit (cs : List (List Nat)) (prev : Option (List Nat)) :
    runFsOps (.createTemp :: cs.map FsOp.writeTemp ++ [.renameTempToTarget]) ⟨prev, none⟩
      = ⟨some cs.flatten, none⟩ := by
  simp only [runFsOps, List.foldl_cons, List.foldl_append, runFsOp]
  rw [show (List.foldl runFsOp ⟨prev, some []⟩ (cs.map FsOp.writeTemp)
      = ⟨prev, some ([] ++ cs.flatten)⟩) from runFsOps_writes cs prev []]
  rfl

/-- C7: the storage upload never leaves a temp file behind; every failing
request (mid-stream error, empty body, missing multipart file, failed
rename) leaves the target path exactly as it was; a success installs the
complete body through the single rename and reports its size, which is
never zero; and a complete body of total size zero is rejected with 422. -/
theorem storage_upload_atomic (prev : Option (List Nat)) (body : UploadBody)
    (renameFails : Bool) :
    (upload_file_storage prev body renameFails).2.temp = none ∧
    ((∀ n, (upload_file_storage prev body renameFails).1 ≠ .created n) →
      (upload_file_storage prev body renameFails).2.target = prev) ∧
    (∀ n, (upload_file_storage prev body renameFails).1 = .created n →
      (upload_file_storage prev body renameFails).2.target = some (writtenBody body) ∧
      n = (writtenBody body).length ∧ n ≠ 0) ∧
    (∀ chunks, body = .raw chunks none → (writtenBody body).length = 0 →
      (upload_file_storage prev body renameFails).1
        = .httpError 422 "File cannot be empty") ∧
    (∀ chunks, body = .multipart chunks none → (writtenBody body).length = 0 →
      (upload_file_storage prev body renameFails).1
        = .httpError 422 "File cannot be empty") := by
  cases body with
  | multipartNoFile =>
    have he : upload_file_storage prev .multipartNoFile renameFails
        = (.httpError 400 "No file provided in multipart form", ⟨prev, none⟩) := by
      simp [upload_file_storage, uploadTrace, runFsOps, runFsOp]
    refine ⟨?_, ?_, ?_, ?_, ?_⟩ <;> simp [he, writtenBody]
  | raw chunks failAfter =>
    cases failAfter with
    | some k =>
      have he : upload_file_storage prev (.raw chunks (some k)) renameFails
          = (.httpError 500 "Upload failed", ⟨prev, none⟩) := by
        simp only [upload_file_storage, uploadTrace]
        rw [runFsOps_abort]
      refine ⟨?_, ?_, ?_, ?_, ?_⟩ <;> simp [he, writtenBody]
    | none =>
      by_cases hz : chunks.flatten.length = 0
      · have he : upload_file_storage prev (.raw chunks none) renameFails
            = (.httpError 422 "File cannot be empty", ⟨prev, none⟩) := by
          simp only [upload_file_storage, uploadTrace]
          rw [if_pos hz, runFsOps_abort]
        refine ⟨?_, ?_, ?_, ?_, ?_⟩ <;> simp [he, writtenBody, hz]
      · cases renameFails with
        | true =>
          have he : upload_file_storage prev (.raw chunks none) true
              = (.httpError 500 "Upload failed", ⟨prev, none⟩) := by
            simp only [upload_file_storage, uploadTrace, eq_self_iff_true, if_true]
            rw [if_neg hz]
            simp
            exact runFsOps_abort _ prev
          refine ⟨?_, ?_, ?_, ?_, ?_⟩
          · simp [he]
          · intro _
            simp [he]
          · intro n hn
            rw [he] at hn
            exact absurd hn (by simp)
          · intro cs hcs
            cases hcs
            intro hlen
            exact absurd hlen hz
          · intro cs hcs
            cases hcs
        | false =>
          have he : upload_file_storage prev (.raw chunks none) false
              = (.created chunks.flatten.length, ⟨some chunks.flatten, none⟩) := by
            simp only [upload_file_storage, uploadTrace]
            rw [if_neg hz, if_neg (by simp), runFsOps_commit]
          refine ⟨?_, ?_, ?_, ?_, ?_⟩
          · simp [he]
          · intro h
            exact absurd he (by simp [Prod.ext_iff]; intro hc; exact absurd hc (h _))
          · intro n hn
            rw [he] at hn
            cases hn
            exact ⟨by simp [he, writtenBody], rfl, hz⟩
          · intro cs hcs
            cases hcs
            intro hlen
            exact absurd hlen hz
          · intro cs hcs
            cases hcs
  | multipart chunks failAfter =>
    cases failAfter with
    | some k =>
      have he : upload_file_storage prev (.multipart chunks (some k)) renameFails
          = (.httpError 500 "Upload failed", ⟨prev, none⟩) := by
        simp only [upload_file_storage, uploadTrace]
        rw [runFsOps_abort]
      refine ⟨?_, ?_, ?_, ?_, ?_⟩ <;> simp [he, writtenBody]
    | none =>
      by_cases hz : (multipartChunks chunks).flatten.length = 0
      · have he : upload_file_storage prev (.multipart chunks none) renameFails
            = (.httpError 422 "File cannot be empty", ⟨prev, none⟩) := by
          simp only [upload_file_storage, uploadTrace]
          rw [if_pos hz, runFsOps_abort]
        refine ⟨?_, ?_, ?_, ?_, ?_⟩ <;> simp [he, writtenBody, hz]
      · cases renameFails with
        | true =>
          have he : upload_file_storage prev (.multipart chunks none) true
              = (.httpError 500 "Upload failed", ⟨prev, none⟩) := by
            simp only [upload_file_storage, uploadTrace, eq_self_iff_true, if_true]
            rw [if_neg hz]
            simp
            exact runFsOps_abort _ prev
          refine ⟨?_, ?_, ?_, ?_, ?_⟩
          · simp [he]
          · intro _
            simp [he]
          · intro n hn
            rw [he] at hn
            exact absurd hn (by simp)
          · intro cs hcs
            cases hcs
          · intro cs hcs
            cases hcs
            intro hlen
            exact absurd hlen hz
        | false =>
          have he : upload_file_storage prev (.multipart chunks none) false
              = (.created (multipartChunks chunks).flatten.length,
                  ⟨some (multipartChunks chunks).flatten, none⟩) := by
            simp only [upload_file_storage, uploadTrace]
            rw [if_neg hz, if_neg (by simp), runFsOps_commit]
          refine ⟨?_, ?_, ?_, ?_, ?_⟩
          · simp [he]
          · intro h
            exact absurd he (by simp [Prod.ext_iff]; intro hc; exact absurd hc (h _))
          · intro n hn
            rw [he] at hn
            cases hn
            exact ⟨by simp [he, writtenBody], rfl, hz⟩
          · intro cs hcs
            cases hcs
          · intro cs hcs
            cases hcs
            intro hlen
            exact absurd hlen hz

/-- Witness for storage_upload_atomic: a stream failing after one chunk
leaves the previous target in place. -/
theorem storage_upload_atomic_witness :
    (upload_file_storage (some [1, 2]) (.raw [[3], [4]] (some 1)) false).2.target
      = some [1, 2] :=
  (storage_upload_atomic (some [1, 2]) (.raw [[3], [4]] (some 1)) false).2.1
    (fun _ h => UploadResp.noConfusion h)

/-- C8 counterexample: with stored average 0 and execution count 2, the code
sets the new average to the reported time itself (30), not to the claimed
running-average formula value (0 * 2 + 30) / (2 + 1) = 10. -/
theorem metrics_avg_counterexample :
    (updateExecutionMetrics ⟨2, 2, 0, some 0⟩ true 30).avg_execution_time_ms
      = some 30 ∧
    (updateExecutionMetrics ⟨2, 2, 0, some 0⟩ true 30).avg_execution_time_ms
      ≠ some ((0 * 2 + 30) / (2 + 1)) := by
  constructor <;> decide

/-- C8 amended: execution_count rises by one and exactly the counter chosen
by the success flag rises by one; the new average follows the claimed
formula (with integer truncation) whenever the stored average is neither
NULL nor 0, and is the reported time itself when the stored average reads
as 0. -/
theorem metrics_update_spec (m : FnMetrics) (success : Bool) (t : Nat) :
    (updateExecutionMetrics m success t).execution_count = m.execution_count + 1 ∧
    (updateExecutionMetrics m success t).execution_success_count
      = m.execution_success_count + (if success then 1 else 0) ∧
    (updateExecutionMetrics m success t).execution_error_count
      = m.execution_error_count + (if success then 0 else 1) ∧
    (m.avg_execution_time_ms.getD 0 ≠ 0 →
      (updateExecutionMetrics m success t).avg_execution_time_ms
        = some ((m.avg_execution_time_ms.getD 0 * m.execution_count + t)
            / (m.execution_count + 1))) ∧
    (m.avg_execution_time_ms.getD 0 = 0 →
      (updateExecutionMetrics m success t).avg_execution_time_ms = some t) := by
  refine ⟨rfl, rfl, rfl, ?_, ?_⟩ <;> intro h <;> simp [updateExecutionMetrics, h]

/-- Witness for metrics_update_spec at a record with nonzero average. -/
theorem metrics_update_spec_witness :
    (updateExecutionMetrics ⟨2, 0, 1, some 4⟩ false 10).avg_execution_time_ms
      = some ((4 * 2 + 10) / (2 + 1)) :=
  (metrics_update_spec ⟨2, 0, 1, some 4⟩ false 10).2.2.2.1 (by decide)

/-- C10: the optional-auth resolver never raises; it yields a user exactly
when the token is well signed, carries a UUID sub that resolves to a user
row, and that user is active; and on an inactive user it yields None while
the required-auth path rejects with 400 Inactive user. -/
theorem optional_auth_spec (users : List UserRow) (token : BearerToken) :
    (∃ r, get_optional_current_user users token = .ok r) ∧
    (∀ u, get_optional_current_user users token = .ok (some u) ↔
      ∃ uid, token = .signed (.uuid uid) ∧ findUserById users uid = some u ∧
        u.is_active = true) ∧
    (∀ uid u, token = .signed (.uuid uid) → findUserById users uid = some u →
      u.is_active = false →
      get_optional_current_user users token = .ok none ∧
      get_current_active_user users token = .http ⟨400, "Inactive user"⟩) := by
  refine ⟨?_, ?_, ?_⟩
  · cases token with
    | missing => exact ⟨none, rfl⟩
    | malformed => exact ⟨none, rfl⟩
    | signed sub =>
      cases sub with
      | absent => exact ⟨none, rfl⟩
      | notUuid => exact ⟨none, rfl⟩
      | uuid uid =>
        cases h : findUserById users uid with
        | none => exact ⟨none, by simp [get_optional_current_user, optionalAuthTry, h]⟩
        | some r =>
          by_cases ha : r.is_active
          · exact ⟨some r, by simp [get_optional_current_user, optionalAuthTry, h, ha]⟩
          · exact ⟨none, by simp [get_optional_current_user, optionalAuthTry, h, ha]⟩
  · intro u
    cases token with
    | missing => simp [get_optional_current_user]
    | malformed => simp [get_optional_current_user, optionalAuthTry]
    | signed sub =>
      cases sub with
      | absent => simp [get_optional_current_user, optionalAuthTry]
      | notUuid => simp [get_optional_current_user, optionalAuthTry]
      | uuid uid =>
        cases h : findUserById users uid with
        | none => simp [get_optional_current_user, optionalAuthTry, h]
        | some r =>
          by_cases ha : r.is_active
          · simp only [get_optional_current_user, optionalAuthTry, h, ha, if_pos]
            constructor
            · rintro h'
              cases h'
              exact ⟨uid, rfl, h, ha⟩
            · rintro ⟨uid', heq, hf, hact⟩
              cases heq
              rw [h] at hf
              cases hf
              rfl
          · simp only [get_optional_current_user, optionalAuthTry, h, ha, if_neg,
              Bool.false_eq_true, reduceCtorEq]
            constructor
            · rintro h'
              cases h'
            · rintro ⟨uid', heq, hf, hact⟩
              cases heq
              rw [h] at hf
              cases hf
              simp [hact] at ha
  · rintro uid u rfl hf hina
    refine ⟨?_, ?_⟩
    · simp [get_optional_current_user, optionalAuthTry, hf, hina]
    · simp [get_current_active_user, get_current_user, hf, hina]

/-- Witness for optional_auth_spec: an inactive user resolves to None on
the optional path and 400 on the required path. -/
theorem optional_auth_spec_witness :
    get_optional_current_user [⟨7, "e", "f", "l", "USER", false⟩]
        (.signed (.uuid 7)) = .ok none ∧
    get_current_active_user [⟨7, "e", "f", "l", "USER", false⟩]
        (.signed (.uuid 7)) = .http ⟨400, "Inactive user"⟩ :=
  (optional_auth_spec [⟨7, "e", "f", "l", "USER", false⟩]
    (.signed (.uuid 7))).2.2 7 ⟨7, "e", "f", "l", "USER", false⟩ rfl (by decide) (by decide)

/-- C9 counterexample at the expiry boundary: the claim says a token with
expires_at ≤ now is rejected with 401 and nothing changes, but the code
compares with strict less-than, so a token whose expires_at equals now is
accepted and rotated. -/
theorem refresh_expiry_boundary_counterexample :
    (refresh_access_token ⟨[⟨1, "a", "f", "l", "USER", true⟩], [⟨1, "tok", 5, none⟩]⟩
        "tok" 5 "fresh").1 = .tokenPair "fresh" ∧
    (refresh_access_token ⟨[⟨1, "a", "f", "l", "USER", true⟩], [⟨1, "tok", 5, none⟩]⟩
        "tok" 5 "fresh").2
      ≠ ⟨[⟨1, "a", "f", "l", "USER", true⟩], [⟨1, "tok", 5, none⟩]⟩ := by
  constructor <;> decide

/-- C9 amended: a refresh presenting a token whose stored row is unrevoked
but expired with expires_at strictly before now gets 401 and the state is
untouched: the expired row stays unrevoked and no other token of the user
is revoked. -/
theorem refresh_expired_token_noop (st : AuthState) (raw : String) (now : Nat)
    (fresh : String) (row : RefreshTokenRow)
    (hfind : st.refresh_tokens.find? (fun r => r.token_hash = hash_token raw) = some row)
    (hrev : row.revoked_at = none) (hexp : row.expires_at < now) :
    refresh_access_token st raw now fresh
      = (.httpError 401 "Invalid or expired refresh token", st) := by
  unfold refresh_access_token validate_refresh_token
  rw [hfind]
  simp [hrev, hexp]

/-- Witness for refresh_expired_token_noop on a concrete expired token. -/
theorem refresh_expired_token_noop_witness :
    refresh_access_token ⟨[⟨1, "a", "f", "l", "USER", true⟩], [⟨1, "tok", 3, none⟩]⟩
        "tok" 10 "fresh"
      = (.httpError 401 "Invalid or expired refresh token",
          ⟨[⟨1, "a", "f", "l", "USER", true⟩], [⟨1, "tok", 3, none⟩]⟩) :=
  refresh_expired_token_noop _ "tok" 10 "fresh" ⟨1, "tok", 3, none⟩ rfl rfl (by decide)

/-- C1 failing run: the first refresh of R1 succeeds and issues R2; the
second refresh presenting R1 again is answered 401 by the validation step
before the rotate statement runs, so the reuse cascade never fires and R2
stays live, although the claim (and the spec scenario) require every live
token of the user, R2 included, to be revoked. -/
theorem refresh_reuse_no_cascade :
    refresh_access_token ⟨[⟨1, "a", "f", "l", "USER", true⟩], [⟨1, "R1", 100, none⟩]⟩
        "R1" 10 "R2"
      = (.tokenPair "R2",
          ⟨[⟨1, "a", "f", "l", "USER", true⟩],
           [⟨1, "R1", 100, some 10⟩, ⟨1, "R2", 40, none⟩]⟩) ∧
    refresh_access_token
        ⟨[⟨1, "a", "f", "l", "USER", true⟩],
         [⟨1, "R1", 100, some 10⟩, ⟨1, "R2", 40, none⟩]⟩ "R1" 20 "R3"
      = (.httpError 401 "Invalid or expired refresh token",
          ⟨[⟨1, "a", "f", "l", "USER", true⟩],
           [⟨1, "R1", 100, some 10⟩, ⟨1, "R2", 40, none⟩]⟩) ∧
    ([⟨1, "R1", 100, some 10⟩, ⟨1, "R2", 40, none⟩] : List RefreshTokenRow).any
        (fun r => r.user_id = 1 ∧ r.revoked_at = none) = true := by
  refine ⟨?_, ?_, ?_⟩ <;> decide

/-- C5 failing run: creating the same user body twice returns the same row
both times (idempotent part of the claim), but a second POST with the same
email and a different name also returns the stored row with a 2xx instead
of the claimed 409: the code never compares the non-email fields. -/
theorem create_user_conflict_returns_existing :
    create_user [] "a@x" "Alice" "A" 1
      = (.created ⟨1, "a@x", "Alice", "A", "USER", true⟩,
          [⟨1, "a@x", "Alice", "A", "USER", true⟩]) ∧
    create_user [⟨1, "a@x", "Alice", "A", "USER", true⟩] "a@x" "Alice" "A" 2
      = (.existing ⟨1, "a@x", "Alice", "A", "USER", true⟩,
          [⟨1, "a@x", "Alice", "A", "USER", true⟩]) ∧
    create_user [⟨1, "a@x", "Alice", "A", "USER", true⟩] "a@x" "Bob" "B" 2
      = (.existing ⟨1, "a@x", "Alice", "A", "USER", true⟩,
          [⟨1, "a@x", "Alice", "A", "USER", true⟩]) ∧
    (create_user [⟨1, "a@x", "Alice", "A", "USER", true⟩] "a@x" "Bob" "B" 2).1
      ≠ .conflict := by
  refine ⟨?_, ?_, ?_, ?_⟩ <;> decide

/-- C2 counterexample: with the id_column query parameter set to name, the
executed WHERE clause of a non-admin PATCH or DELETE compares the column
name, not id, so the clause is not exactly id = row_id AND user_id =
caller. -/
theorem row_where_idcolumn_counterexample :
    rowWhereClause "USER" "name" "42" "u7" ≠ ⟨"id", "42", some "u7"⟩ ∧
    (rowWhereClause "USER" "name" "42" "u7").idColumn = "name" := by
  constructor <;> decide

/-- C2 amended: the WHERE clause is id_column = row_id AND user_id = caller
with id_column a query parameter defaulting to id, the user_id predicate
dropped exactly for ADMIN; when no row satisfies the clause both PATCH and
DELETE answer 404 with a fixed detail, identical for a missing row and a
row owned by someone else. -/
theorem row_where_spec (role idCol rowId caller : String)
    (rows : List (List (String × String))) :
    rowWhereClause role idCol rowId caller
      = ⟨idCol, rowId, if role = "ADMIN" then none else some caller⟩ ∧
    (role ≠ "ADMIN" →
      (∀ r ∈ rows, ¬ (r.lookup idCol = some rowId ∧ r.lookup "user_id" = some caller)) →
      update_row_outcome rows role idCol rowId caller
        = some ⟨404, "Row not found or you don't have permission to update it"⟩ ∧
      delete_row_outcome rows role idCol rowId caller
        = some ⟨404, "Row not found or you don't have permission to delete it"⟩) ∧
    (role = "ADMIN" →
      (update_row_outcome rows role idCol rowId caller = none ↔
        ∃ r ∈ rows, r.lookup idCol = some rowId)) := by
  refine ⟨?_, ?_, ?_⟩
  · by_cases h : role = "ADMIN" <;> simp [rowWhereClause, h]
  · intro hrole hnone
    have hany : rows.any (matchesWhere (rowWhereClause role idCol rowId caller)) = false := by
      rw [List.any_eq_false]
      intro r hr
      simp only [matchesWhere, rowWhereClause, if_neg hrole, Bool.and_eq_true,
        beq_iff_eq, not_and]
      intro h1 h2
      exact hnone r hr ⟨h1, h2⟩
    constructor <;> simp [update_row_outcome, delete_row_outcome, hany]
  · intro hrole
    simp only [update_row_outcome, rowWhereClause, if_pos hrole]
    constructor
    · intro h
      by_cases hany : rows.any (matchesWhere ⟨idCol, rowId, none⟩) = true
      · rw [List.any_eq_true] at hany
        obtain ⟨r, hr, hm⟩ := hany
        simp only [matchesWhere, Bool.and_eq_true, beq_iff_eq] at hm
        exact ⟨r, hr, hm.1⟩
      · rw [if_neg hany] at h
        cases h
    · rintro ⟨r, hr, hm⟩
      have : rows.any (matchesWhere ⟨idCol, rowId, none⟩) = true := by
        rw [List.any_eq_true]
        exact ⟨r, hr, by simp [matchesWhere, hm]⟩
      simp [this]

/-- Witness for row_where_spec: an empty table gives the 404 pair for a
non-admin caller. -/
theorem row_where_spec_witness :
    update_row_outcome [] "USER" "id" "7" "u1"
      = some ⟨404, "Row not found or you don't have permission to update it"⟩ ∧
    delete_row_outcome [] "USER" "id" "7" "u1"
      = some ⟨404, "Row not found or you don't have permission to delete it"⟩ :=
  (row_where_spec "USER" "id" "7" "u1" []).2.1 (by decide) (by simp)

/-- Helper: a pattern matches itself when every character is read
literally, with the wildcard characters still matching their own
occurrence. -/
theorem likeMatchAux_self (s : List Char) : ∀ fuel, 2 * s.length + 1 ≤ fuel →
    likeMatchAux fuel s s = true := by
  induction s with
  | nil =>
    intro fuel h
    match fuel, h with
    | fuel + 1, _ => rfl
  | cons c s ih =>
    intro fuel h
    match fuel, h with
    | fuel + 1, h =>
      have hb : 2 * s.length + 2 ≤ fuel := by simp at h; omega
      by_cases hc : c = '%'
      · subst hc
        have h2 : likeMatchAux fuel ('%' :: s) s = true := by
          match fuel, hb with
          | fuel + 1, hb =>
            have h1 := ih fuel (by omega)
            simp [likeMatchAux, h1]
        simp [likeMatchAux, h2]
      · by_cases hu : c = '_'
        · subst hu
          have h1 := ih fuel (by omega)
          simp [likeMatchAux, h1]
        · have h1 := ih fuel (by omega)
          simp [likeMatchAux, hc, hu, h1]

/-- Helper: a leading percent wildcard absorbs any run of characters in
front of the rest of the pattern. -/
theorem likeMatchAux_pct (B : List Char) : ∀ (mid : List Char) (fuel : Nat),
    mid.length + 2 * B.length + 2 ≤ fuel →
    likeMatchAux fuel ('%' :: B) (mid ++ B) = true := by
  intro mid
  induction mid with
  | nil =>
    intro fuel h
    match fuel, h with
    | fuel + 1, h =>
      have h1 := likeMatchAux_self B fuel (by simp at h; omega)
      simp [likeMatchAux, h1]
  | cons x mid ih =>
    intro fuel h
    match fuel, h with
    | fuel + 1, h =>
      have h1 := ih fuel (by simp at h; omega)
      simp [likeMatchAux, h1]

/-- Helper: a pattern of the form A percent B matches any text of the form
A mid B. -/
theorem likeMatchAux_mid (A : List Char) : ∀ (mid B : List Char) (fuel : Nat),
    2 * A.length + mid.length + 2 * B.length + 2 ≤ fuel →
    likeMatchAux fuel (A ++ '%' :: B) (A ++ (mid ++ B)) = true := by
  induction A with
  | nil =>
    intro mid B fuel h
    simp only [List.nil_append]
    exact likeMatchAux_pct B mid fuel (by simp at h; omega)
  | cons a A ih =>
    intro mid B fuel h
    match fuel, h with
    | fuel + 1, h =>
      by_cases ha : a = '%'
      · subst ha
        simp only [List.cons_append]
        have hb : 2 * A.length + mid.length + 2 * B.length + 3 ≤ fuel := by
          simp at h; omega
        have h2 : likeMatchAux fuel ('%' :: (A ++ '%' :: B)) (A ++ (mid ++ B))
            = true := by
          match fuel, hb with
          | fuel + 1, hb =>
            have h1 := ih mid B fuel (by omega)
            simp [likeMatchAux, h1]
        simp [likeMatchAux, h2]
      · by_cases hu : a = '_'
        · subst hu
          simp only [List.cons_append]
          have h1 := ih mid B fuel (by simp at h; omega)
          simp [likeMatchAux, h1]
        · simp only [List.cons_append]
          have h1 := ih mid B fuel (by simp at h; omega)
          simp [likeMatchAux, ha, hu, h1]

/-- Helper: a successful optional-group parse decomposes the remainder as
infix plus extension. -/
theorem groupNumber_shape (ext r : List Char) (n : Nat)
    (h : groupNumber ext r = some n) : ∃ mid, r = mid ++ ext := by
  unfold groupNumber at h
  split at h
  case _ r2 heq =>
    unfold parenNumberSuffix at h
    by_cases hds : (r2.takeWhile Char.isDigit).isEmpty
    · rw [if_pos hds] at h
      cases h
    · rw [if_neg hds] at h
      split at h
      case _ rest heq2 =>
        split at h
        case isTrue hrest =>
          refine ⟨r.takeWhile pyIsSpace ++ '(' :: r2.takeWhile Char.isDigit ++ [')'], ?_⟩
          have h1 : r.takeWhile pyIsSpace ++ r.dropWhile pyIsSpace = r :=
            List.takeWhile_append_dropWhile pyIsSpace r
          have h2 : r2.takeWhile Char.isDigit ++ r2.dropWhile Char.isDigit = r2 :=
            List.takeWhile_append_dropWhile Char.isDigit r2
          have hr2 : r2 = r2.takeWhile Char.isDigit ++ ')' :: ext := by
            conv_lhs => rw [← h2, heq2, hrest]
          calc r = r.takeWhile pyIsSpace ++ '(' :: r2 := by
                conv_lhs => rw [← h1, heq]
            _ = r.takeWhile pyIsSpace
                  ++ '(' :: (r2.takeWhile Char.isDigit ++ ')' :: ext) :=
                congrArg (fun t => r.takeWhile pyIsSpace ++ '(' :: t) hr2
            _ = (r.takeWhile pyIsSpace ++ '(' :: r2.takeWhile Char.isDigit ++ [')'])
                  ++ ext := by
                simp [List.append_assoc]
        case isFalse => cases h
      case _ => cases h
  case _ => cases h

/-- Helper: a successful filename-regex match decomposes the whole path as
directory-and-base, infix, extension. -/
theorem matchNumberedName_shape (dir base ext p : List Char) (k : Nat)
    (h : matchNumberedName dir base ext p = some k) :
    ∃ mid, p = (dir ++ base) ++ (mid ++ ext) := by
  unfold matchNumberedName at h
  by_cases hpre : (dir ++ base).isPrefixOf p
  · rw [if_pos hpre] at h
    simp only [] at h
    have hp : (dir ++ base) ++ p.drop (dir ++ base).length = p :=
      List.prefix_iff_eq_append.mp (List.isPrefixOf_iff_prefix.mp hpre)
    rcases hg : groupNumber ext (p.drop (dir ++ base).length) with _ | n
    · rw [hg] at h
      have hr : p.drop (dir ++ base).length = ext := by
        by_cases he : p.drop (dir ++ base).length = ext
        · exact he
        · rw [if_neg he] at h
          cases h
      exact ⟨[], by rw [← hp, hr]; simp⟩
    · obtain ⟨mid, hmid⟩ := groupNumber_shape ext _ n hg
      exact ⟨mid, by rw [← hp, hmid]⟩
  · rw [if_neg hpre] at h
    cases h

/-- Helper: every path the filename regex accepts also satisfies the LIKE
prefilter of the SQL query, so the prefilter drops no counted file. -/
theorem like_of_matchNumberedName (dir base ext p : List Char) (k : Nat)
    (h : matchNumberedName dir base ext p = some k) :
    likeMatch (dir ++ base ++ '%' :: ext) p = true := by
  obtain ⟨mid, rfl⟩ := matchNumberedName_shape dir base ext p k h
  unfold likeMatch
  apply likeMatchAux_mid
  simp only [List.length_append, List.length_cons]
  omega

/-- Helper: filtering by the LIKE pattern before extracting the used
numbers changes nothing. -/
theorem filterMap_like_eq (live : List (List Char)) (dir base ext : List Char) :
    (live.filter (fun p => likeMatch (dir ++ base ++ '%' :: ext) p)).filterMap
        (matchNumberedName dir base ext)
      = live.filterMap (matchNumberedName dir base ext) := by
  induction live with
  | nil => rfl
  | cons p rest ih =>
    simp only [List.append_assoc] at ih
    rcases hm : matchNumberedName dir base ext p with _ | k
    · by_cases hl : likeMatch (dir ++ base ++ '%' :: ext) p = true
      · rw [List.append_assoc] at hl
        simp [List.filter_cons, hl, List.filterMap_cons, hm, ih]
      · rw [List.append_assoc] at hl
        simp [List.filter_cons, hl, List.filterMap_cons, hm, ih]
    · have hl := like_of_matchNumberedName dir base ext p k hm
      rw [List.append_assoc] at hl
      simp [List.filter_cons, hl, List.filterMap_cons, hm, ih]

/-- Helper: consuming one occurrence of n strictly shrinks the count of
elements at least n. -/
theorem filter_ge_succ_length_lt (l : List Nat) (n : Nat) (h : n ∈ l) :
    (l.filter (fun m => n + 1 ≤ m)).length < (l.filter (fun m => n ≤ m)).length := by
  induction l with
  | nil => cases h
  | cons a l ih =>
    rw [List.filter_cons, List.filter_cons]
    by_cases h1 : n ≤ a
    · by_cases h2 : n + 1 ≤ a
      · have hmem : n ∈ l := by
          rcases List.mem_cons.mp h with h' | h'
          · omega
          · exact h'
        rw [if_pos (decide_eq_true h2), if_pos (decide_eq_true h1)]
        simp only [List.length_cons]
        exact Nat.succ_lt_succ (ih hmem)
      · have mono : (l.filter (fun m => n + 1 ≤ m)).length
            ≤ (l.filter (fun m => n ≤ m)).length := by
          rw [← List.countP_eq_length_filter, ← List.countP_eq_length_filter]
          refine List.countP_mono_left ?_
          intro x _ hx
          simp at hx ⊢
          omega
        rw [if_pos (decide_eq_true h1), if_neg (by simpa using h2)]
        simp only [List.length_cons]
        omega
    · have h2 : ¬ n + 1 ≤ a := by omega
      have hmem : n ∈ l := by
        rcases List.mem_cons.mp h with h' | h'
        · omega
        · exact h'
      rw [if_neg (by simpa using h2), if_neg (by simpa using h1)]
      exact ih hmem

/-- Helper: the probing loop of find_next_available_filename returns the
least number at least its starting point that is not in the used list,
provided the fuel exceeds the number of used values it can step through. -/
theorem nextFreeAux_spec (used : List Nat) : ∀ (fuel n : Nat),
    (used.filter (fun m => n ≤ m)).length < fuel →
    (nextFreeAux used fuel n ∉ used ∧ n ≤ nextFreeAux used fuel n ∧
      ∀ m, n ≤ m → m < nextFreeAux used fuel n → m ∈ used) := by
  intro fuel
  induction fuel with
  | zero => intro n h; omega
  | succ fuel ih =>
    intro n h
    by_cases hn : n ∈ used
    · have hlt := filter_ge_succ_length_lt used n hn
      obtain ⟨h1, h2, h3⟩ := ih (n + 1) (by omega)
      rw [show nextFreeAux used (fuel + 1) n = nextFreeAux used fuel (n + 1)
        from by simp [nextFreeAux, hn]]
      refine ⟨h1, by omega, ?_⟩
      intro m hm1 hm2
      by_cases hmn : m = n
      · subst hmn; exact hn
      · exact h3 m (by omega) hm2
    · rw [show nextFreeAux used (fuel + 1) n = n from by simp [nextFreeAux, hn]]
      exact ⟨hn, Nat.le_refl n, fun m hm1 hm2 => by omega⟩

/-- Helper: nextFree returns the least free number at least 1. -/
theorem nextFree_spec (used : List Nat) :
    nextFree used ∉ used ∧ 1 ≤ nextFree used ∧
      ∀ m, 1 ≤ m → m < nextFree used → m ∈ used :=
  nextFreeAux_spec used (used.length + 1) 1
    (Nat.lt_succ_of_le (List.length_filter_le _ _))

/-- C6 counterexample: with live files doc.pdf and doc(1).pdf (no space
before the parenthesis), an upload of doc.pdf is stored as doc (2).pdf,
while the claim, which only counts live files of the exact shape
base space (k).ext, prescribes doc (1).pdf. -/
theorem find_next_filename_counterexample :
    find_next_available_filename ["doc.pdf".toList, "doc(1).pdf".toList] "doc.pdf".toList
      = "doc (2).pdf".toList ∧
    claimResolveFilename ["doc.pdf".toList, "doc(1).pdf".toList] "doc.pdf".toList
      = "doc (1).pdf".toList ∧
    find_next_available_filename ["doc.pdf".toList, "doc(1).pdf".toList] "doc.pdf".toList
      ≠ claimResolveFilename ["doc.pdf".toList, "doc(1).pdf".toList] "doc.pdf".toList := by
  refine ⟨?_, ?_, ?_⟩ <;> decide

/-- C6 amended: an upload whose path names no live file keeps its path;
otherwise the stored path is base space (n).ext with directory and
extension preserved, where n is the least number at least 1 not used by
any live file matching base, optional whitespace, (k), ext — the matching
tolerates a missing or widened space before the parenthesis — and the LIKE
prefilter of the code excludes no such file. -/
theorem find_next_filename_spec (live : List (List Char)) (orig : List Char) :
    (live.contains orig = false → find_next_available_filename live orig = orig) ∧
    (live.contains orig = true →
      ∃ n, find_next_available_filename live orig
          = (pathSplitDir orig).1 ++ (pathSplitExt (pathSplitDir orig).2).1
              ++ (' ' :: '(' :: (toString n).toList)
              ++ ')' :: (pathSplitExt (pathSplitDir orig).2).2 ∧
        1 ≤ n ∧
        n ∉ live.filterMap (matchNumberedName (pathSplitDir orig).1
              (pathSplitExt (pathSplitDir orig).2).1
              (pathSplitExt (pathSplitDir orig).2).2) ∧
        ∀ m, 1 ≤ m → m < n →
          m ∈ live.filterMap (matchNumberedName (pathSplitDir orig).1
                (pathSplitExt (pathSplitDir orig).2).1
                (pathSplitExt (pathSplitDir orig).2).2)) := by
  constructor
  · intro h
    unfold find_next_available_filename
    rw [if_pos (by simp only [h]; simp)]
  · intro h
    unfold find_next_available_filename
    rw [if_neg (by simp only [h]; simp)]
    simp only []
    rw [filterMap_like_eq]
    obtain ⟨h1, h2, h3⟩ := nextFree_spec (live.filterMap
      (matchNumberedName (pathSplitDir orig).1
        (pathSplitExt (pathSplitDir orig).2).1 (pathSplitExt (pathSplitDir orig).2).2))
    exact ⟨_, rfl, h2, h1, h3⟩

/-- Witness for find_next_filename_spec: uploading doc.pdf next to a live
doc.pdf and doc (1).pdf yields doc (2).pdf with 1 and a fresh 2 behaving
as the theorem states. -/
theorem find_next_filename_spec_witness :
    ∃ n, find_next_available_filename
          ["doc.pdf".toList, "doc (1).pdf".toList] "doc.pdf".toList
        = (pathSplitDir "doc.pdf".toList).1
            ++ (pathSplitExt (pathSplitDir "doc.pdf".toList).2).1
            ++ (' ' :: '(' :: (toString n).toList)
            ++ ')' :: (pathSplitExt (pathSplitDir "doc.pdf".toList).2).2 ∧
      1 ≤ n ∧
      n ∉ ["doc.pdf".toList, "doc (1).pdf".toList].filterMap
            (matchNumberedName (pathSplitDir "doc.pdf".toList).1
              (pathSplitExt (pathSplitDir "doc.pdf".toList).2).1
              (pathSplitExt (pathSplitDir "doc.pdf".toList).2).2) ∧
      ∀ m, 1 ≤ m → m < n →
        m ∈ ["doc.pdf".toList, "doc (1).pdf".toList].filterMap
              (matchNumberedName (pathSplitDir "doc.pdf".toList).1
                (pathSplitExt (pathSplitDir "doc.pdf".toList).2).1
                (pathSplitExt (pathSplitDir "doc.pdf".toList).2).2) :=
  (find_next_filename_spec ["doc.pdf".toList, "doc (1).pdf".toList]
    "doc.pdf".toList).2 (by decide)

/-- C4 counterexample: between two dollars the code accepts any characters
as a tag, and on an unterminated opener it duplicates the dollar and drops
the next character; the input a $x b$; c therefore comes back as the
single mangled statement a $x b$$ c, although its semicolon lies outside
every quoted region of the claim (no valid dollar tag contains a space),
so the claimed splitter returns a $x b$ and c. -/
theorem split_sql_dollar_counterexample :
    split_sql_statements "a $x b$; c".toList = ["a $x b$$ c".toList] ∧
    specSplit "a $x b$; c".toList = ["a $x b$".toList, "c".toList] ∧
    split_sql_statements "a $x b$; c".toList ≠ specSplit "a $x b$; c".toList := by
  refine ⟨?_, ?_, ?_⟩ <;> decide

/-- Helper: on dollar-free input the Python scanner and the reference
scanner take the same steps from corresponding states, for any sufficient
fuels. -/
theorem split_aux_eq (n : Nat) : ∀ (q : List Char) (f1 f2 : Nat) (inStr : Option Char)
    (cur : List Char) (acc : List (List Char)),
    q.length ≤ n → q.length ≤ f1 → q.length ≤ f2 → '$' ∉ q →
    (inStr = none ∨ inStr = some '\'' ∨ inStr = some '"') →
    split_sql_statements_aux f1 q inStr cur acc
      = specSplitAux f2 q (strModeOf inStr) cur acc := by
  induction n with
  | zero =>
    intro q f1 f2 inStr cur acc hn _ _ _ _
    have hq : q = [] := List.length_eq_zero.mp (Nat.le_zero.mp hn)
    subst hq
    cases f1 <;> cases f2 <;> rfl
  | succ n ih =>
    intro q f1 f2 inStr cur acc hn hf1 hf2 hd hin
    match q with
    | [] => cases f1 <;> cases f2 <;> rfl
    | c :: cs =>
      match f1, hf1 with
      | f1 + 1, hf1 =>
      match f2, hf2 with
      | f2 + 1, hf2 =>
      have hdc : c ≠ '$' := fun h => hd (by simp [h])
      have hdcs : '$' ∉ cs := fun h => hd (by simp [h])
      have hlen : cs.length ≤ n := by simp at hn; omega
      have hl1 : cs.length ≤ f1 := by simp at hf1; omega
      have hl2 : cs.length ≤ f2 := by simp at hf2; omega
      rcases hin with rfl | rfl | rfl
      · by_cases hsemi : c = ';'
        · subst hsemi
          simp only [split_sql_statements_aux, specSplitAux, strModeOf]
          simp
          exact ih cs f1 f2 none [] (emitStmt cur acc) hlen hl1 hl2 hdcs (Or.inl rfl)
        · by_cases hsq : c = '\''
          · subst hsq
            simp only [split_sql_statements_aux, specSplitAux, strModeOf]
            simp
            exact ih cs f1 f2 (some '\'') (cur ++ ['\'']) acc hlen hl1 hl2 hdcs
              (Or.inr (Or.inl rfl))
          · by_cases hdq : c = '"'
            · subst hdq
              simp only [split_sql_statements_aux, specSplitAux, strModeOf]
              simp
              exact ih cs f1 f2 (some '"') (cur ++ ['"']) acc hlen hl1 hl2 hdcs
                (Or.inr (Or.inr rfl))
            · simp only [split_sql_statements_aux, specSplitAux, strModeOf]
              simp [hdc, hsemi, hsq, hdq]
              exact ih cs f1 f2 none (cur ++ [c]) acc hlen hl1 hl2 hdcs (Or.inl rfl)
      · by_cases hc : c = '\''
        · subst hc
          match cs, hdcs, hlen, hl1, hl2 with
          | [], hdcs, hlen, hl1, hl2 =>
            simp only [split_sql_statements_aux, specSplitAux, strModeOf]
            simp
          | c2 :: cs2, hdcs, hlen, hl1, hl2 =>
            by_cases h2 : c2 = '\''
            · subst h2
              simp only [split_sql_statements_aux, specSplitAux, strModeOf]
              simp
              exact ih cs2 f1 f2 (some '\'') (cur ++ ['\'', '\'']) acc
                (by simp at hlen; omega) (by simp at hl1; omega)
                (by simp at hl2; omega) (fun h => hdcs (by simp [h]))
                (Or.inr (Or.inl rfl))
            · simp only [split_sql_statements_aux, specSplitAux, strModeOf]
              simp [h2]
              exact ih (c2 :: cs2) f1 f2 none (cur ++ ['\'']) acc hlen hl1 hl2 hdcs
                (Or.inl rfl)
        · have hc' : ¬('\'' = c) := fun h => hc (Eq.symm h)
          simp only [split_sql_statements_aux, specSplitAux, strModeOf]
          simp [hdc, hc, hc']
          exact ih cs f1 f2 (some '\'') (cur ++ [c]) acc hlen hl1 hl2 hdcs
            (Or.inr (Or.inl rfl))
      · by_cases hc : c = '"'
        · subst hc
          match cs, hdcs, hlen, hl1, hl2 with
          | [], hdcs, hlen, hl1, hl2 =>
            simp only [split_sql_statements_aux, specSplitAux, strModeOf]
            simp
          | c2 :: cs2, hdcs, hlen, hl1, hl2 =>
            by_cases h2 : c2 = '"'
            · subst h2
              simp only [split_sql_statements_aux, specSplitAux, strModeOf]
              simp
              exact ih cs2 f1 f2 (some '"') (cur ++ ['"', '"']) acc
                (by simp at hlen; omega) (by simp at hl1; omega)
                (by simp at hl2; omega) (fun h => hdcs (by simp [h]))
                (Or.inr (Or.inr rfl))
            · simp only [split_sql_statements_aux, specSplitAux, strModeOf]
              simp [h2]
              exact ih (c2 :: cs2) f1 f2 none (cur ++ ['"']) acc hlen hl1 hl2 hdcs
                (Or.inl rfl)
        · have hc' : ¬('"' = c) := fun h => hc (Eq.symm h)
          simp only [split_sql_statements_aux, specSplitAux, strModeOf]
          simp [hdc, hc, hc']
          exact ih cs f1 f2 (some '"') (cur ++ [c]) acc hlen hl1 hl2 hdcs
            (Or.inr (Or.inr rfl))

/-- C4 amended: on every input without a dollar sign the splitter agrees
with the claimed behaviour: it splits exactly at semicolons outside
single-quoted strings and double-quoted identifiers, reads a doubled
quote inside a quoted region as an escape, strips each statement, drops
empty statements and returns a trailing statement without a final
semicolon.  (On inputs with dollars the code deviates as the
counterexample shows.) -/
theorem split_sql_no_dollar_spec (q : List Char) (hq : '$' ∉ q) :
    split_sql_statements q = specSplit q :=
  split_aux_eq q.length q q.length q.length none [] []
    (Nat.le_refl _) (Nat.le_refl _) (Nat.le_refl _) hq (Or.inl rfl)

/-- Witness for split_sql_no_dollar_spec on a dollar-free input with
quotes and a trailing statement. -/
theorem split_sql_no_dollar_spec_witness :
    split_sql_statements "x; 'a;''b'; \"q;\" ;; tail".toList
      = specSplit "x; 'a;''b'; \"q;\" ;; tail".toList :=
  split_sql_no_dollar_spec "x; 'a;''b'; \"q;\" ;; tail".toList (by decide)

/-- Helper: registering never removes a row. -/
theorem register_mem (reg : List TableMeta) (n : String)
    (sch : List (String × ColumnInfo)) (o : Nat) (t : TableMeta) (h : t ∈ reg) :
    t ∈ register_table_metadata reg n sch o := by
  unfold register_table_metadata
  by_cases hc : reg.any (fun t => t.name = n)
  · rw [if_pos hc]; exact h
  · rw [if_neg hc]; exact List.mem_append_left _ h

/-- Helper: the registration fold never removes a row. -/
theorem foldl_register_mem (o : Nat) (ps : List (String × List (String × ColumnInfo))) :
    ∀ (reg : List TableMeta) (t : TableMeta), t ∈ reg →
    t ∈ ps.foldl (fun r p => register_table_metadata r p.1 p.2 o) reg := by
  induction ps with
  | nil => intro reg t h; exact h
  | cons q qs ih =>
    intro reg t h
    exact ih (register_table_metadata reg q.1 q.2 o) t (register_mem _ _ _ _ _ h)

/-- Helper: after registering a name, a row of that name exists. -/
theorem register_name_mem (reg : List TableMeta) (n : String)
    (sch : List (String × ColumnInfo)) (o : Nat) :
    ∃ t ∈ register_table_metadata reg n sch o, t.name = n := by
  unfold register_table_metadata
  by_cases hc : reg.any (fun t => t.name = n)
  · rw [if_pos hc]
    rcases List.any_eq_true.mp hc with ⟨t, ht, hname⟩
    exact ⟨t, ht, by simpa using hname⟩
  · rw [if_neg hc]
    exact ⟨⟨n, sch, false, o⟩, by simp, rfl⟩

/-- Helper: every parsed CREATE yields a row of its name after the
registration fold. -/
theorem foldl_register_name (o : Nat) (ps : List (String × List (String × ColumnInfo))) :
    ∀ (reg : List TableMeta) p, p ∈ ps →
    ∃ t ∈ ps.foldl (fun r p => register_table_metadata r p.1 p.2 o) reg, t.name = p.1 := by
  induction ps with
  | nil => intro reg p h; cases h
  | cons q qs ih =>
    intro reg p hp
    rcases List.mem_cons.mp hp with rfl | hp'
    · obtain ⟨t, ht, hname⟩ := register_name_mem reg p.1 p.2 o
      exact ⟨t, foldl_register_mem o qs _ t ht, hname⟩
    · exact ih (register_table_metadata reg q.1 q.2 o) p hp'

/-- Helper: a single registration adds only private rows of the caller. -/
theorem register_provenance (reg : List TableMeta) (n : String)
    (sch : List (String × ColumnInfo)) (o : Nat) (t : TableMeta)
    (h : t ∈ register_table_metadata reg n sch o) :
    t ∈ reg ∨ (t.public = false ∧ t.owner_id = o) := by
  unfold register_table_metadata at h
  by_cases hc : reg.any (fun t => t.name = n)
  · rw [if_pos hc] at h; exact Or.inl h
  · rw [if_neg hc] at h
    rcases List.mem_append.mp h with h' | h'
    · exact Or.inl h'
    · rcases List.mem_singleton.mp h' with rfl
      exact Or.inr ⟨rfl, rfl⟩

/-- Helper: every row of the registration fold is either pre-existing or a
private row owned by the caller. -/
theorem foldl_register_provenance (o : Nat)
    (ps : List (String × List (String × ColumnInfo))) :
    ∀ (reg : List TableMeta) (t : TableMeta),
    t ∈ ps.foldl (fun r p => register_table_metadata r p.1 p.2 o) reg →
    t ∈ reg ∨ (t.public = false ∧ t.owner_id = o) := by
  induction ps with
  | nil => intro reg t h; exact Or.inl h
  | cons q qs ih =>
    intro reg t h
    rcases ih (register_table_metadata reg q.1 q.2 o) t h with h' | h'
    · exact register_provenance reg q.1 q.2 o t h'
    · exact Or.inr h'

/-- Helper: the unregistration fold keeps only pre-existing rows whose
name is not among the dropped names. -/
theorem foldl_unregister_mem (ns : List String) :
    ∀ (reg : List TableMeta) (t : TableMeta),
    t ∈ ns.foldl (fun r n => unregister_table_metadata r n) reg →
    t ∈ reg ∧ ∀ n ∈ ns, t.name ≠ n := by
  induction ns with
  | nil => intro reg t h; exact ⟨h, by simp⟩
  | cons m ms ih =>
    intro reg t h
    obtain ⟨h1, h2⟩ := ih (unregister_table_metadata reg m) t h
    have h3 := List.mem_filter.mp h1
    refine ⟨h3.1, ?_⟩
    intro n hn
    rcases List.mem_cons.mp hn with rfl | hn'
    · simpa using h3.2
    · exact h2 n hn'

set_option maxRecDepth 20000 in
/-- C3 counterexample: the claim fails on two valid non-read inputs.  The
single statement of CREATE TABLE a (); is a CREATE TABLE statement whose
table name a is not in the system set, yet the parser drops it (its column
block parses to an empty schema) and the execution of that input registers
nothing; likewise CREATE TABLE "my table" (x TEXT); whose quoted two-word
name the name regex cannot match, so no registry row for my table
appears. -/
theorem sql_console_create_counterexample :
    claimCreateTableNames "CREATE TABLE a ();".toList = ["a"] ∧
    SYSTEM_TABLES.contains "a" = false ∧
    (execute_query_registry [] "CREATE TABLE a ();".toList 0).any
        (fun t => t.name = "a") = false ∧
    claimCreateTableNames "CREATE TABLE \"my table\" (x TEXT);".toList
      = ["my table"] ∧
    SYSTEM_TABLES.contains "my table" = false ∧
    (execute_query_registry [] "CREATE TABLE \"my table\" (x TEXT);".toList 0).any
        (fun t => t.name = "my table") = false := by
  refine ⟨?_, ?_, ?_, ?_, ?_, ?_⟩ <;> decide

set_option maxRecDepth 20000 in
/-- C3 amended: after a successful non-read SQL-console execution, every CREATE
TABLE statement the registration parser extracts — an unquoted word table
name outside the system set whose column block yields at least one parsed
column definition — has a registry row of its name, private and owned by
the calling admin when no row of that name pre-existed; every extracted
DROP TABLE name is absent from the final registry, CREATE registrations
being applied before DROP unregistrations; in particular the two-CREATE
input registers both a and b as private rows of the caller, and the
CREATE-then-DROP input leaves no registry entry for a. -/
theorem sql_console_registry_spec :
    (∀ (reg : List TableMeta) (q : List Char) (owner : Nat) p,
      p ∈ parse_create_table_statements q →
      ∃ t ∈ (parse_create_table_statements q).foldl
          (fun r p => register_table_metadata r p.1 p.2 owner) reg,
        t.name = p.1 ∧
        ((∀ t0 ∈ reg, t0.name ≠ p.1) → t.public = false ∧ t.owner_id = owner)) ∧
    (∀ (reg : List TableMeta) (q : List Char) (owner : Nat) n,
      n ∈ parse_drop_table_statements q →
      ∀ t ∈ execute_query_registry reg q owner, t.name ≠ n) ∧
    execute_query_registry [] "CREATE TABLE a (x TEXT); CREATE TABLE b (y INT);".toList 0
      = [⟨"a", [("x", ⟨"TEXT", true⟩)], false, 0⟩,
         ⟨"b", [("y", ⟨"INTEGER", true⟩)], false, 0⟩] ∧
    execute_query_registry [] "CREATE TABLE a (x TEXT); DROP TABLE a;".toList 0
      = [] := by
  refine ⟨?_, ?_, by decide, by decide⟩
  · intro reg q owner p hp
    obtain ⟨t, ht, hname⟩ :=
      foldl_register_name owner (parse_create_table_statements q) reg p hp
    refine ⟨t, ht, hname, fun hfresh => ?_⟩
    rcases foldl_register_provenance owner (parse_create_table_statements q) reg t ht
      with hreg | hflags
    · exact absurd hname (hfresh t hreg)
    · exact hflags
  · intro reg q owner n hn t ht
    unfold execute_query_registry at ht
    exact (foldl_unregister_mem (parse_drop_table_statements q) _ t ht).2 n hn

set_option maxRecDepth 20000 in
/-- Witness for sql_console_registry_spec: the first CREATE of the
two-CREATE input yields a private row named a owned by the caller in an
initially empty registry. -/
theorem sql_console_registry_spec_witness :
    ∃ t ∈ (parse_create_table_statements
        "CREATE TABLE a (x TEXT); CREATE TABLE b (y INT);".toList).foldl
        (fun r p => register_table_metadata r p.1 p.2 5) [],
      t.name = "a" ∧
      ((∀ t0 ∈ ([] : List TableMeta), t0.name ≠ "a") →
        t.public = false ∧ t.owner_id = 5) :=
  sql_console_registry_spec.1 [] _ 5 ("a", [("x", ⟨"TEXT", true⟩)]) (by decide)

end SelfDB
